import Mathlib

/-!
# Verification of feeder's feed-normalization and delta-selection core

This file gives a shallow embedding of the core logic of the feeder
repository (file `main.go`, the snapshot cited by the claims) and proves
properties of it.

Modelling conventions:
* `time.Time` values are modelled as integer instants (`Int`); the Go zero
  value `time.Time{}` is the instant `0`, `t.After(u)` is `u < t` and
  `t.Before(u)` is `t < u`.
* Go maps `map[string]time.Time` are modelled as association lists with
  Go's map semantics (lookup returns an optional value, assignment
  replaces the binding); mutation is modelled by explicit state passing.
* `sort.Slice(xs, less)` sorts with an unspecified order on ties; it is
  modelled deterministically by `List.insertionSort` with the
  corresponding non-strict relation.  All proved statements about sorted
  output are insensitive to the tie order.
* Code that can panic at runtime (nil-pointer dereference, index out of
  range) is modelled in `Option`, `none` being the panic.
* The XML layer (`encoding/xml`) is external library code; a raw document
  is modelled at that interface by the outcomes of the three dialect
  decodes that `unmarshal` attempts (`RawDoc` below).
-/

namespace Feeder

/-- Does the first list lead the second (character-wise)? -/
def leadsWith : List Char → List Char → Bool
  | [], _ => true
  | _ :: _, [] => false
  | p :: ps, x :: xs => p = x && leadsWith ps xs

/-- Does `sub` occur contiguously in the list? -/
def hasSubList (sub : List Char) : List Char → Bool
  | [] => leadsWith sub []
  | x :: xs => leadsWith sub (x :: xs) || hasSubList sub xs

/-- Go `strings.Contains s sub`. -/
def strContains (s sub : String) : Bool :=
  hasSubList sub.toList s.toList

/-- Go `unicode.IsSpace` restricted to the whitespace that occurs in feed
date strings (ASCII whitespace, NEL and NBSP). -/
def isSpaceChar (c : Char) : Bool :=
  c = ' ' ∨ c = '\t' ∨ c = '\n' ∨ c = '\x0b' ∨ c = '\x0c' ∨ c = '\r' ∨
    c.toNat = 133 ∨ c.toNat = 160

/-- Go `strings.TrimSpace`. -/
def trimSpace (s : String) : String :=
  String.mk (((s.toList.dropWhile isSpaceChar).reverse.dropWhile isSpaceChar).reverse)

/-! ## Canonical data model (`Feed`, `FeedEntry` from main.go) -/

/-- `FeedEntry` from the source; `Content` (`template.HTML`) is a string,
`Updated` a `time.Time` instant. -/
structure FeedEntry where
  Title : String
  Link : String
  ID : String
  Updated : Int
  Content : String
deriving DecidableEq, Repr

/-- `Feed` from the source.  `Failure error` is modelled as an optional
error message. -/
structure Feed where
  Title : String
  ID : String
  Link : String
  Updated : Int
  Entries : List FeedEntry
  Failure : Option String := none
deriving DecidableEq, Repr

/-- `func (e *FeedEntry) Copy() *FeedEntry` — a field-by-field copy. -/
def FeedEntry.Copy (e : FeedEntry) : FeedEntry :=
  { Title := e.Title, Link := e.Link, ID := e.ID,
    Updated := e.Updated, Content := e.Content }

/-! ## Watermark map (`map[string]time.Time`) -/

/-- The watermark store: feed ID to last-acknowledged instant. -/
abbrev TS := List (String × Int)

/-- Go map read `v, ok := ts[key]`. -/
def tsLookup : TS → String → Option Int
  | [], _ => none
  | (k, v) :: rest, key => if k = key then some v else tsLookup rest key

/-- Go map write `ts[key] = val` (replaces an existing binding). -/
def tsSet : TS → String → Int → TS
  | [], key, val => [(key, val)]
  | (k, v) :: rest, key, val =>
    if k = key then (k, val) :: rest else (k, v) :: tsSet rest key val

/-! ## Delta selector (`pickNewData`, main.go lines 1742-1774) -/

/-- The descending comparison used for
`sort.Slice(copies, func(i, j) { return copies[i].Updated.After(copies[j].Updated) })`. -/
def updatedGE (a b : FeedEntry) : Prop := b.Updated ≤ a.Updated

/-- The ascending comparison used for
`sort.Slice(nf.Entries, func(i, j) { return Entries[i].Updated.Before(Entries[j].Updated) })`. -/
def updatedLE (a b : FeedEntry) : Prop := a.Updated ≤ b.Updated

instance : DecidableRel updatedGE :=
  fun a b => inferInstanceAs (Decidable (b.Updated ≤ a.Updated))

instance : DecidableRel updatedLE :=
  fun a b => inferInstanceAs (Decidable (a.Updated ≤ b.Updated))

instance : IsTotal FeedEntry updatedGE := ⟨fun a b => le_total b.Updated a.Updated⟩

instance : IsTrans FeedEntry updatedGE := ⟨fun _ _ _ h1 h2 => le_trans h2 h1⟩

instance : IsTotal FeedEntry updatedLE := ⟨fun a b => le_total a.Updated b.Updated⟩

instance : IsTrans FeedEntry updatedLE := ⟨fun _ _ _ h1 h2 => le_trans h1 h2⟩

/-- The selection guard `!seen || e.Updated.After(lt)`:
`lt` is the looked-up watermark (`none` when the feed has no entry yet). -/
def entryAfter (lt : Option Int) (e : FeedEntry) : Bool :=
  match lt with
  | none => true
  | some t => decide (t < e.Updated)

/-- The walk over the descending-sorted copies:
`for _, e := range copies { if keep(e) { append; if len >= limit { break } } }`.
The length test happens after the append, so a kept entry is recorded even
when `limitPerFeed = 0`. -/
def pickLoop (limitPerFeed : Nat) (keep : FeedEntry → Bool) :
    List FeedEntry → List FeedEntry → List FeedEntry
  | [], acc => acc
  | e :: rest, acc =>
    if keep e then
      if limitPerFeed ≤ acc.length + 1 then acc ++ [e]
      else pickLoop limitPerFeed keep rest (acc ++ [e])
    else pickLoop limitPerFeed keep rest acc

/-- The per-feed body of `pickNewData`: copy the entries, sort them
newest-first, keep qualifying entries up to the limit, then re-sort the
kept entries ascending. -/
def pickNewFeed (limitPerFeed : Nat) (ts : TS) (f : Feed) : Feed :=
  let copies := List.insertionSort updatedGE (f.Entries.map FeedEntry.Copy)
  let lt := tsLookup ts f.ID
  let picked := pickLoop limitPerFeed (entryAfter lt) copies []
  { Title := f.Title, ID := f.ID, Link := f.Link, Updated := f.Updated,
    Entries := List.insertionSort updatedLE picked, Failure := none }

/-- `func pickNewData(fs []*Feed, limitPerFeed int, ts map[string]time.Time) []*Feed`
over a slice without nil feeds: a feed joins the result only when at least
one entry was kept. -/
def pickNewData : List Feed → Nat → TS → List Feed
  | [], _, _ => []
  | f :: rest, limitPerFeed, ts =>
    if 0 < (pickNewFeed limitPerFeed ts f).Entries.length then
      pickNewFeed limitPerFeed ts f :: pickNewData rest limitPerFeed ts
    else pickNewData rest limitPerFeed ts

/-- `pickNewData` over a slice that may hold nil `*Feed` pointers, as
produced by `downloadFeeds`: `len(f.Entries)` on a nil feed dereferences
the nil pointer, which panics (`none`). -/
def pickNewDataNil : List (Option Feed) → Nat → TS → Option (List Feed)
  | [], _, _ => some []
  | none :: _, _, _ => none
  | some f :: rest, limitPerFeed, ts =>
    (pickNewDataNil rest limitPerFeed ts).map (fun r =>
      if 0 < (pickNewFeed limitPerFeed ts f).Entries.length then
        pickNewFeed limitPerFeed ts f :: r
      else r)

/-! ## Watermark update (`updateTimestamps`, main.go lines 1776-1788) -/

/-- The inner loop
`for _, e := range f.Entries { if e.Updated.After(ts[f.ID]) { ts[f.ID] = e.Updated } }`.
A missing key reads as the Go zero value, instant `0`. -/
def advanceEntries (ts : TS) (fid : String) : List FeedEntry → TS
  | [] => ts
  | e :: rest =>
    let cur := (tsLookup ts fid).getD 0
    advanceEntries (if cur < e.Updated then tsSet ts fid e.Updated else ts) fid rest

/-- One iteration of `updateTimestamps`: seed a missing watermark from
`f.Entries[0]` (a panic — `none` — when the entry slice is empty), then
advance it over all entries. -/
def updateFeedTS (ts : TS) (f : Feed) : Option TS :=
  match tsLookup ts f.ID with
  | some _ => some (advanceEntries ts f.ID f.Entries)
  | none =>
    match f.Entries with
    | [] => none
    | e0 :: _ => some (advanceEntries (tsSet ts f.ID e0.Updated) f.ID f.Entries)

/-- `func updateTimestamps(ts map[string]time.Time, nd []*Feed)`:
fold `updateFeedTS` over the selected feeds. -/
def updateTimestamps (ts : TS) : List Feed → Option TS
  | [] => some ts
  | f :: rest =>
    match updateFeedTS ts f with
    | none => none
    | some ts1 => updateTimestamps ts1 rest

/-- Running maximum of `Updated` starting from `v`. -/
def foldMax (v : Int) (l : List FeedEntry) : Int :=
  l.foldl (fun acc e => max acc e.Updated) v

/-- The maximum `Updated` instant of a nonempty entry list (`0` for `[]`). -/
def maxUpd : List FeedEntry → Int
  | [] => 0
  | e :: rest => foldMax e.Updated rest

/-! ## Time normalizer (`parseTime`, main.go lines 1127-1174)

`time.Parse(layout, s)` for each of the eight fixed layouts is translated
into an executable parser.  A parsed `time.Time` is a `GoTime`: broken-down
civil time plus a zone offset in minutes; `toEpoch` is the instant it
denotes.  Named zone abbreviations resolve to offset `0`: Go fabricates a
zero-offset zone for abbreviations it cannot resolve, and the source
deliberately parses the full-month layout in UTC — the spec documents this
approximation. -/

/-- A parsed broken-down time: the result of one `time.Parse` call. -/
structure GoTime where
  year : Int
  month : Nat
  day : Nat
  hour : Nat
  minute : Nat
  second : Nat
  offsetMin : Int
deriving DecidableEq, Repr

/-- Hinnant's civil-from-days algorithm: days since 1970-01-01. -/
def daysFromCivil (y : Int) (m d : Nat) : Int :=
  let yAdj : Int := if m ≤ 2 then y - 1 else y
  let era : Int := Int.fdiv yAdj 400
  let yoe : Int := yAdj - era * 400
  let mp : Int := (Int.ofNat m + 9) % 12
  let doy : Int := (153 * mp + 2) / 5 + (Int.ofNat d - 1)
  let doe : Int := yoe * 365 + yoe / 4 - yoe / 100 + doy
  era * 146097 + doe - 719468

/-- The absolute instant (seconds since the epoch) a `GoTime` denotes. -/
def toEpoch (t : GoTime) : Int :=
  daysFromCivil t.year t.month t.day * 86400 +
    Int.ofNat t.hour * 3600 + Int.ofNat t.minute * 60 + Int.ofNat t.second -
    t.offsetMin * 60

def digitVal (c : Char) : Nat := c.toNat - '0'.toNat

/-- Consume an exact literal. -/
def pLit : List Char → List Char → Option (List Char)
  | [], s => some s
  | _ :: _, [] => none
  | c :: cs, x :: xs => if x = c then pLit cs xs else none

/-- Exactly two digits (Go `getnum` with `fixed`). -/
def pNum2 : List Char → Option (Nat × List Char)
  | a :: b :: rest =>
    if a.isDigit && b.isDigit then some (digitVal a * 10 + digitVal b, rest) else none
  | _ => none

/-- One or two digits (Go `getnum` without `fixed`). -/
def pNum1or2 : List Char → Option (Nat × List Char)
  | [] => none
  | [a] => if a.isDigit then some (digitVal a, []) else none
  | a :: b :: rest =>
    if a.isDigit then
      if b.isDigit then some (digitVal a * 10 + digitVal b, rest)
      else some (digitVal a, b :: rest)
    else none

/-- Exactly four digits (Go's `2006` year token). -/
def pNum4 : List Char → Option (Nat × List Char)
  | a :: b :: c :: d :: rest =>
    if a.isDigit && b.isDigit && c.isDigit && d.isDigit then
      some (((digitVal a * 10 + digitVal b) * 10 + digitVal c) * 10 + digitVal d, rest)
    else none
  | _ => none

/-- Case-insensitive literal match at the head of the input, as Go's name lookup matches. -/
def ciMatch : List Char → List Char → Option (List Char)
  | [], s => some s
  | _ :: _, [] => none
  | p :: ps, x :: xs => if x.toLower = p.toLower then ciMatch ps xs else none

/-- Go's `lookup`: try each table word in order as a prefix of the input. -/
def pLookup : List (String × Nat) → List Char → Option (Nat × List Char)
  | [], _ => none
  | (w, v) :: rest, s =>
    match ciMatch w.toList s with
    | some s1 => some (v, s1)
    | none => pLookup rest s

def dayNameTab : List (String × Nat) :=
  [("Sun", 0), ("Mon", 1), ("Tue", 2), ("Wed", 3), ("Thu", 4), ("Fri", 5), ("Sat", 6)]

def shortMonthTab : List (String × Nat) :=
  [("Jan", 1), ("Feb", 2), ("Mar", 3), ("Apr", 4), ("May", 5), ("Jun", 6),
   ("Jul", 7), ("Aug", 8), ("Sep", 9), ("Oct", 10), ("Nov", 11), ("Dec", 12)]

def longMonthTab : List (String × Nat) :=
  [("January", 1), ("February", 2), ("March", 3), ("April", 4), ("May", 5), ("June", 6),
   ("July", 7), ("August", 8), ("September", 9), ("October", 10), ("November", 11),
   ("December", 12)]

/-- Numeric zone `-0700`: a sign and four digits, minutes east of UTC. -/
def pNumTZ : List Char → Option (Int × List Char)
  | [] => none
  | c :: rest =>
    if c = '+' ∨ c = '-' then
      match pNum2 rest with
      | none => none
      | some (hh, r1) =>
        match pNum2 r1 with
        | none => none
        | some (mm, r2) =>
          let off : Int := Int.ofNat (hh * 60 + mm)
          some (if c = '-' then -off else off, r2)
    else none

/-- Named zone `MST`: a run of three to five upper-case letters.  The
offset is `0`: Go fabricates a zero-offset zone for abbreviations it does
not know (and the source parses the full-month layout in UTC). -/
def pNamedTZ (s : List Char) : Option (List Char) :=
  let run := s.takeWhile Char.isUpper
  if 3 ≤ run.length ∧ run.length ≤ 5 then some (s.drop run.length) else none

/-- Optional fractional second after the seconds token (`.` or `,` plus
digits); the fraction is consumed and discarded (sub-second precision is
not modelled). -/
def pFrac (s : List Char) : List Char :=
  match s with
  | c :: d :: rest =>
    if (c = '.' ∨ c = ',') ∧ d.isDigit then (d :: rest).dropWhile Char.isDigit else s
  | _ => s

/-- Strict fractional second for the RFC 3339 fast path (`.` only). -/
def pFracDot (s : List Char) : List Char :=
  match s with
  | c :: d :: rest =>
    if c = '.' ∧ d.isDigit then (d :: rest).dropWhile Char.isDigit else s
  | _ => s

def isLeap (y : Int) : Bool := y % 4 = 0 ∧ (y % 100 ≠ 0 ∨ y % 400 = 0)

def daysInMonth (y : Int) (m : Nat) : Nat :=
  if m = 2 then (if isLeap y then 29 else 28)
  else if m = 4 ∨ m = 6 ∨ m = 9 ∨ m = 11 then 30
  else 31

/-- Go's end-of-parse range validation: month, day-of-month, hour, minute
and second ranges. -/
def mkGoTime (y : Int) (mo d h mi se : Nat) (off : Int) : Option GoTime :=
  if 1 ≤ mo ∧ mo ≤ 12 ∧ 1 ≤ d ∧ d ≤ daysInMonth y mo ∧ h ≤ 23 ∧ mi ≤ 59 ∧ se ≤ 59 then
    some { year := y, month := mo, day := d, hour := h, minute := mi, second := se,
           offsetMin := off }
  else none

/-- `Mon, 02|2 Jan|January 2006` — the date head of the RFC-1123 family;
yields day-of-month, month, year and the rest of the input. -/
def parseRFC1123Head (singleDigitDay fullMonth : Bool) (s0 : List Char) :
    Option (Nat × Nat × Nat × List Char) :=
  match pLookup dayNameTab s0 with
  | none => none
  | some (_, s1) =>
  match pLit [',', ' '] s1 with
  | none => none
  | some s2 =>
  match (if singleDigitDay then pNum1or2 s2 else pNum2 s2) with
  | none => none
  | some (d, s3) =>
  match pLit [' '] s3 with
  | none => none
  | some s4 =>
  match pLookup (if fullMonth then longMonthTab else shortMonthTab) s4 with
  | none => none
  | some (mo, s5) =>
  match pLit [' '] s5 with
  | none => none
  | some s6 =>
  match pNum4 s6 with
  | none => none
  | some (y, s7) => some (d, mo, y, s7)

/-- ` 15:04:05` with an optional fractional second — the clock part. -/
def parseClockFrac (s7 : List Char) : Option (Nat × Nat × Nat × List Char) :=
  match pLit [' '] s7 with
  | none => none
  | some s8 =>
  match pNum1or2 s8 with
  | none => none
  | some (h, s9) =>
  match pLit [':'] s9 with
  | none => none
  | some s10 =>
  match pNum2 s10 with
  | none => none
  | some (mi, s11) =>
  match pLit [':'] s11 with
  | none => none
  | some s12 =>
  match pNum2 s12 with
  | none => none
  | some (se, s13) => some (h, mi, se, pFrac s13)

/-- ` MST` or ` -0700` and end of input — the zone tail; yields the
offset in minutes. -/
def parseZoneEnd (namedZone : Bool) (s14 : List Char) : Option Int :=
  match pLit [' '] s14 with
  | none => none
  | some s15 =>
    if namedZone then
      match pNamedTZ s15 with
      | some [] => some 0
      | _ => none
    else
      match pNumTZ s15 with
      | some (off, []) => some off
      | _ => none

/-- `time.Parse` for the RFC-1123 layout family
`Mon, 02|2 Jan|January 2006 15:04:05 (-0700 | MST)`. -/
def runRFC1123 (singleDigitDay fullMonth namedZone : Bool) (s0 : List Char) :
    Option GoTime :=
  match parseRFC1123Head singleDigitDay fullMonth s0 with
  | none => none
  | some (d, mo, y, s7) =>
  match parseClockFrac s7 with
  | none => none
  | some (h, mi, se, s14) =>
  match parseZoneEnd namedZone s14 with
  | none => none
  | some off => mkGoTime (Int.ofNat y) mo d h mi se off

/-- `time.Parse(time.RFC1123Z, raw)`. -/
def goParseRFC1123Z (s : String) : Option GoTime := runRFC1123 false false false s.toList

/-- `time.Parse("Mon, 2 Jan 2006 15:04:05 -0700", raw)` — single-digit day. -/
def goParseRFC1123ZsingleDay (s : String) : Option GoTime :=
  runRFC1123 true false false s.toList

/-- `time.Parse(time.RFC1123, raw)`. -/
def goParseRFC1123 (s : String) : Option GoTime := runRFC1123 false false true s.toList

/-- `time.Parse("Mon, 2 Jan 2006 15:04:05 MST", raw)` — single-digit day. -/
def goParseRFC1123singleDay (s : String) : Option GoTime :=
  runRFC1123 true false true s.toList

/-- `time.ParseInLocation("Mon, 2 January 2006 15:04:05 MST", raw, time.UTC)`
— single-digit day, full month name, interpreted in UTC. -/
def goParseRFC1123FullMonth (s : String) : Option GoTime :=
  runRFC1123 true true true s.toList

/-- `2006-01-02` — the numeric date head shared by the ISO-style layouts. -/
def parseDateDigits (s0 : List Char) : Option (Nat × Nat × Nat × List Char) :=
  match pNum4 s0 with
  | none => none
  | some (y, s1) =>
  match pLit ['-'] s1 with
  | none => none
  | some s2 =>
  match pNum2 s2 with
  | none => none
  | some (mo, s3) =>
  match pLit ['-'] s3 with
  | none => none
  | some s4 =>
  match pNum2 s4 with
  | none => none
  | some (d, s5) => some (y, mo, d, s5)

/-- `T15:04:05` with a two-digit hour  — the strict RFC 3339 clock. -/
def parseClockT2 (s5 : List Char) : Option (Nat × Nat × Nat × List Char) :=
  match pLit ['T'] s5 with
  | none => none
  | some s6 =>
  match pNum2 s6 with
  | none => none
  | some (h, s7) =>
  match pLit [':'] s7 with
  | none => none
  | some s8 =>
  match pNum2 s8 with
  | none => none
  | some (mi, s9) =>
  match pLit [':'] s9 with
  | none => none
  | some s10 =>
  match pNum2 s10 with
  | none => none
  | some (se, s11) => some (h, mi, se, s11)

/-- `Z` / `z` or `±hh:mm` and end of input — the strict RFC 3339 zone. -/
def parseRFC3339Zone (s : List Char) : Option Int :=
  match s with
  | ['Z'] => some 0
  | ['z'] => some 0
  | c :: rest =>
    if c = '+' ∨ c = '-' then
      match pNum2 rest with
      | none => none
      | some (zh, r1) =>
      match pLit [':'] r1 with
      | none => none
      | some r2 =>
      match pNum2 r2 with
      | none => none
      | some (zm, r3) =>
        if r3 = [] ∧ zh ≤ 23 ∧ zm ≤ 59 then
          some (if c = '-' then -(Int.ofNat (zh * 60 + zm)) else Int.ofNat (zh * 60 + zm))
        else none
    else none
  | [] => none

/-- `time.Parse(time.RFC3339, raw)` — Go's strict RFC 3339 path. -/
def goParseRFC3339 (s : String) : Option GoTime :=
  match parseDateDigits s.toList with
  | none => none
  | some (y, mo, d, s5) =>
  match parseClockT2 s5 with
  | none => none
  | some (h, mi, se, s11) =>
  match parseRFC3339Zone (pFracDot s11) with
  | none => none
  | some off => mkGoTime (Int.ofNat y) mo d h mi se off

/-- `T15:04:05` with a one-or-two-digit hour — the general-path clock of
the `T`-separated numeric-offset layout. -/
def parseClockT (s5 : List Char) : Option (Nat × Nat × Nat × List Char) :=
  match pLit ['T'] s5 with
  | none => none
  | some s6 =>
  match pNum1or2 s6 with
  | none => none
  | some (h, s7) =>
  match pLit [':'] s7 with
  | none => none
  | some s8 =>
  match pNum2 s8 with
  | none => none
  | some (mi, s9) =>
  match pLit [':'] s9 with
  | none => none
  | some s10 =>
  match pNum2 s10 with
  | none => none
  | some (se, s11) => some (h, mi, se, s11)

/-- `time.Parse("2006-01-02T15:04:05-0700", raw)` — the `T`-separated
numeric-offset fallback. -/
def goParseISONumTZ (s : String) : Option GoTime :=
  match parseDateDigits s.toList with
  | none => none
  | some (y, mo, d, s5) =>
  match parseClockT s5 with
  | none => none
  | some (h, mi, se, s11) =>
  match pNumTZ (pFrac s11) with
  | some (off, []) => mkGoTime (Int.ofNat y) mo d h mi se off
  | _ => none

/-- `time.Parse("2006-01-02", raw)` — bare date, midnight UTC. -/
def goParseDateOnly (s : String) : Option GoTime :=
  match parseDateDigits s.toList with
  | some (y, mo, d, []) => mkGoTime (Int.ofNat y) mo d 0 0 0 0
  | _ => none

def parseTimeErrMsg (raw : String) : String := "failed to parse time string " ++ raw

/-- `func parseTime(raw string) (time.Time, error)`: trim the input, then
try the eight layouts in order, returning the first success. -/
def parseTime (raw0 : String) : Except String GoTime :=
  let raw := trimSpace raw0
  match goParseRFC1123Z raw with
  | some t => .ok t
  | none =>
  match goParseRFC1123ZsingleDay raw with
  | some t => .ok t
  | none =>
  match goParseRFC1123 raw with
  | some t => .ok t
  | none =>
  match goParseRFC1123singleDay raw with
  | some t => .ok t
  | none =>
  match goParseRFC1123FullMonth raw with
  | some t => .ok t
  | none =>
  match goParseRFC3339 raw with
  | some t => .ok t
  | none =>
  match goParseISONumTZ raw with
  | some t => .ok t
  | none =>
  match goParseDateOnly raw with
  | some t => .ok t
  | none => .error (parseTimeErrMsg raw)

/-- The layout attempts of `parseTime`, in source order. -/
def feederLayouts : List (String → Option GoTime) :=
  [goParseRFC1123Z, goParseRFC1123ZsingleDay, goParseRFC1123, goParseRFC1123singleDay,
   goParseRFC1123FullMonth, goParseRFC3339, goParseISONumTZ, goParseDateOnly]

/-- First `some` in a list of optional results. -/
def firstSome {α : Type} : List (Option α) → Option α
  | [] => none
  | some a :: _ => some a
  | none :: rest => firstSome rest

/-! ## Dialect structures and adapters -/

/-- `xmlTime.UnmarshalXML`: decode the element's inner text, then
`parseTime` it; either failure aborts the surrounding `Decode`. -/
def xmlTimeUnmarshalXML (inner : Except String String) : Except String Int :=
  match inner with
  | .error e => .error e
  | .ok v =>
    match parseTime v with
    | .error e => .error e
    | .ok t => .ok (toEpoch t)

/-- A decoded `link` element (`XMLName` omitted — it is the fixed tag).
The Go field `Type` is a Lean keyword and is called `Typ` here. -/
structure Link where
  HRef : String
  Rel : String
  Typ : String
deriving DecidableEq, Repr

structure RSSItem where
  Title : String
  Link : String
  Description : String
  GUID : String
  PubDate : String
deriving DecidableEq, Repr

/-- `func (i *RSSItem) Entry() *FeedEntry` with the parsed `pubTime`. -/
def RSSItem.Entry (i : RSSItem) (pubTime : Int) : FeedEntry :=
  { Title := i.Title, Link := i.Link, ID := i.GUID, Updated := pubTime,
    Content := i.Description }

structure RSSFeed where
  Title : String
  Links : List Link
  LastBuildDate : String
  Items : List RSSItem
deriving DecidableEq, Repr

/-- The id/link selection loop of `RSSFeed.Feed`: the last matching link
wins in each role, starting from the first link for both. -/
def rssLinkLoop : Link → Link → List Link → Link × Link
  | idl, lkl, [] => (idl, lkl)
  | idl, lkl, l :: rest =>
    if l.Typ = "text/html" ∨ l.Rel = "alternate" then rssLinkLoop idl l rest
    else if l.Rel = "self" then rssLinkLoop l lkl rest
    else rssLinkLoop idl lkl rest

def rssMissingLinkMsg (title : String) : String :=
  "failed to convert rss feed " ++ title ++ ", missing link"

/-- The item loop of `RSSFeed.Feed`: an item with an empty `pubDate` is
skipped (logged); an item whose nonempty `pubDate` fails `parseTime`
makes the whole conversion fail. -/
def rssEntriesLoop (feedTitle : String) : List RSSItem → Except String (List FeedEntry)
  | [] => .ok []
  | i :: rest =>
    if i.PubDate = "" then rssEntriesLoop feedTitle rest
    else
      match parseTime i.PubDate with
      | .error err =>
        .error ("pubDate parse error for feed title=" ++ feedTitle ++
          " str=" ++ i.PubDate ++ " err=" ++ err)
      | .ok t =>
        match rssEntriesLoop feedTitle rest with
        | .error e => .error e
        | .ok es => .ok (i.Entry (toEpoch t) :: es)

/-- `func (f *RSSFeed) Feed() (*Feed, error)` (main.go lines 1176-1218). -/
def RSSFeed.Feed (f : RSSFeed) : Except String Feeder.Feed :=
  match f.Links with
  | [] => .error (rssMissingLinkMsg f.Title)
  | l0 :: _ =>
    let pair := rssLinkLoop l0 l0 f.Links
    let base : Feeder.Feed :=
      { Title := f.Title, ID := pair.1.HRef, Link := pair.2.HRef, Updated := 0,
        Entries := [], Failure := none }
    let withDate : Except String Feeder.Feed :=
      if f.LastBuildDate = "" then .ok base
      else
        match parseTime f.LastBuildDate with
        | .error err =>
          .error ("lastBuildDate parse error for feed " ++ f.Title ++
            " str=" ++ f.LastBuildDate ++ " err=" ++ err)
        | .ok t => .ok { base with Updated := toEpoch t }
    match withDate with
    | .error e => .error e
    | .ok fb =>
      match rssEntriesLoop f.Title f.Items with
      | .error e => .error e
      | .ok es => .ok { fb with Entries := es }

structure RDFChannel where
  Title : String
  Link : String
  Date : Int
deriving DecidableEq, Repr

structure RDFItem where
  Title : String
  Link : String
  Date : Int
  Description : String
deriving DecidableEq, Repr

/-- `func (i *RDFItem) Entry() *FeedEntry`. -/
def RDFItem.Entry (i : RDFItem) : FeedEntry :=
  { Title := i.Title, Link := i.Link, ID := i.Link, Updated := i.Date,
    Content := i.Description }

/-- `Channel` is a `*RDFChannel` in Go: `none` models a nil pointer. -/
structure RDFFeed where
  Channel : Option RDFChannel
  Items : List RDFItem
deriving DecidableEq, Repr

/-- `func (f *RDFFeed) Feed() (*Feed, error)`: never errors, but
dereferences `f.Channel` (panic — `none` — when nil). -/
def RDFFeed.Feed (f : RDFFeed) : Option Feeder.Feed :=
  f.Channel.map (fun ch =>
    { Title := ch.Title, ID := ch.Link, Link := ch.Link, Updated := ch.Date,
      Entries := f.Items.map RDFItem.Entry, Failure := none })

structure MediaThumbnail where
  URL : String
  Width : Int
  Height : Int
deriving DecidableEq, Repr

def MediaThumbnail.HTML (mt : MediaThumbnail) : String :=
  "<img src=\"" ++ mt.URL ++ "\" width=\"" ++ toString mt.Width ++
    "\" height=\"" ++ toString mt.Height ++ "\" />"

structure MediaContent where
  URL : String
  Typ : String
  Width : Int
  Height : Int
deriving DecidableEq, Repr

/-- `MediaGroup` (the `community` statistics fields carry no logic and are
omitted).  `Content` and `Thumbnail` are pointers in Go. -/
structure MediaGroup where
  Title : String
  Content : Option MediaContent
  Thumbnail : Option MediaThumbnail
  Description : String
deriving DecidableEq, Repr

/-- `func (mg *MediaGroup) HTML() string`: when a thumbnail is present the
code dereferences `mg.Content` without a nil check — `none` is that panic. -/
def MediaGroup.HTML (mg : MediaGroup) : Option String :=
  let result := "<div>" ++ mg.Description ++ "</div>"
  match mg.Thumbnail with
  | none => some result
  | some th =>
    match mg.Content with
    | none => none
    | some c =>
      some (result ++ "<div><a href=\"" ++ c.URL ++ "\">" ++ th.HTML ++ "</a></div>")

structure AtomEntry where
  Title : String
  Link : Link
  Updated : Int
  ID : String
  Content : String
  MediaGroup : Option MediaGroup
deriving DecidableEq, Repr

/-- `func (e *AtomEntry) Entry() *FeedEntry`, with `content` the possibly
media-group-substituted content. -/
def AtomEntry.Entry (e : AtomEntry) (content : String) : FeedEntry :=
  { Title := e.Title, Link := e.Link.HRef, ID := e.ID, Updated := e.Updated,
    Content := content }

structure AtomFeed where
  Title : String
  Links : List Link
  Updated : Int
  ID : String
  Entries : List AtomEntry
deriving DecidableEq, Repr

/-- The link loop of `AtomFeed.Feed`: `cf.Link` starts as the zero value
`""` and becomes the href of the first link whose `rel` is not `"self"`. -/
def atomLink : List Link → String
  | [] => ""
  | l :: rest => if l.Rel ≠ "self" then l.HRef else atomLink rest

/-- The entry loop of `AtomFeed.Feed`, with the media-group content
fallback for empty content. -/
def atomEntriesLoop : List AtomEntry → Option (List FeedEntry)
  | [] => some []
  | e :: rest =>
    let contentOpt :=
      if e.Content = "" then
        match e.MediaGroup with
        | some mg => mg.HTML
        | none => some e.Content
      else some e.Content
    match contentOpt with
    | none => none
    | some c => (atomEntriesLoop rest).map (fun es => e.Entry c :: es)

/-- `func (f *AtomFeed) Feed() (*Feed, error)` (main.go lines 1274-1297):
the returned error is always nil, so the Go error component is dropped;
`none` models a panic inside `MediaGroup.HTML`. -/
def AtomFeed.Feed (f : AtomFeed) : Option Feeder.Feed :=
  (atomEntriesLoop f.Entries).map (fun es =>
    { Title := f.Title, ID := f.ID, Link := atomLink f.Links, Updated := f.Updated,
      Entries := es, Failure := none })

/-! ## Format detector (`unmarshal`) and fetcher aggregation (`downloadFeeds`) -/

/-- A raw document, modelled at the `encoding/xml` interface by the
outcomes of the three dialect decodes `unmarshal` attempts on its bytes.
A decode error is its message string (checked for `"unexpected EOF"`). -/
structure RawDoc where
  atomDecode : Except String AtomFeed
  rssDecode : Except String RSSFeed
  rdfDecode : Except String RDFFeed

/-- `func unmarshal(byt []byte) (*Feed, error)` (main.go lines 1435-1474):
try Atom, then RSS, then RDF; when all three decodes fail and the RDF
error mentions `"unexpected EOF"`, return `(nil, nil)` — a nil feed with
no error.  The outer `Option` is a panic inside an adapter. -/
def unmarshal (d : RawDoc) : Option (Except String (Option Feeder.Feed)) :=
  match d.atomDecode with
  | .ok atom => (atom.Feed).map (fun f => .ok (some f))
  | .error _ =>
    match d.rssDecode with
    | .ok rss =>
      some (match rss.Feed with
        | .error e => .error e
        | .ok f => .ok (some f))
    | .error _ =>
      match d.rdfDecode with
      | .ok rdf => (rdf.Feed).map (fun f => .ok (some f))
      | .error rdfErr =>
        some (if strContains rdfErr "unexpected EOF" then .ok none else .error rdfErr)

structure ConfigFeed where
  Name : String
  URL : String
  Disabled : Bool
deriving DecidableEq, Repr

/-- `downloadFeed`: a failed `get` is the source's error, otherwise
`unmarshal` the bytes. -/
def downloadFeed (r : Except String RawDoc) : Option (Except String (Option Feeder.Feed)) :=
  match r with
  | .error e => some (.error e)
  | .ok doc => unmarshal doc

/-- `func downloadFeeds(cfg, cs) ([]*Feed, []*Feed)` (main.go lines
1701-1740), determinized: each enabled source contributes exactly one
outcome — the (possibly nil) feed to the successes, or a failure feed
carrying the source's name, URL and error.  The channel rendezvous
delivers outcomes in an arbitrary order; the model uses source order. -/
def downloadFeeds :
    List (ConfigFeed × Except String RawDoc) →
      Option (List (Option Feeder.Feed) × List Feeder.Feed)
  | [] => some ([], [])
  | (fc, r) :: rest =>
    if fc.Disabled then downloadFeeds rest
    else
      match downloadFeed r with
      | none => none
      | some (.error e) =>
        (downloadFeeds rest).map (fun p =>
          (p.1, { Title := fc.Name, ID := "", Link := fc.URL, Updated := 0,
                  Entries := [], Failure := some e } :: p.2))
      | some (.ok f) =>
        (downloadFeeds rest).map (fun p => (f :: p.1, p.2))

/-! ## Concrete inputs used by witnesses and counterexamples -/

def wEntry1 : FeedEntry :=
  { Title := "first", Link := "l1", ID := "e1", Updated := 1, Content := "" }

def wEntry2 : FeedEntry :=
  { Title := "second", Link := "l2", ID := "e2", Updated := 2, Content := "" }

def wEntry3 : FeedEntry :=
  { Title := "third", Link := "l3", ID := "e3", Updated := 3, Content := "" }

def wFeedC1 : Feed :=
  { Title := "w1", ID := "X", Link := "L", Updated := 0, Entries := [wEntry1, wEntry2] }

def wFeedC3 : Feed :=
  { Title := "w3", ID := "Y", Link := "L", Updated := 0,
    Entries := [wEntry2, wEntry3, wEntry1] }

def cexFeedC3 : Feed :=
  { Title := "c3", ID := "Z", Link := "L", Updated := 0, Entries := [wEntry1] }

def wFeedC4 : Feed :=
  { Title := "w4", ID := "W", Link := "L", Updated := 0,
    Entries := [{ Title := "a", Link := "", ID := "", Updated := 5, Content := "" },
                { Title := "b", Link := "", ID := "", Updated := 1, Content := "" },
                { Title := "c", Link := "", ID := "", Updated := 3, Content := "" }] }

def cexFeedC4 : Feed :=
  { Title := "c4", ID := "V", Link := "L", Updated := 0, Entries := [wEntry3] }

def wFeedC10 : Feed :=
  { Title := "w10", ID := "X", Link := "L", Updated := 0, Entries := [wEntry3] }

def cexFeedC2a : Feed :=
  { Title := "A", ID := "X", Link := "L", Updated := 0,
    Entries := [{ Title := "a5", Link := "", ID := "", Updated := 5, Content := "" }] }

def cexFeedC2b : Feed :=
  { Title := "B", ID := "X", Link := "L", Updated := 0,
    Entries := [{ Title := "b1", Link := "", ID := "", Updated := 1, Content := "" }] }

def wFeedC2 : Feed :=
  { Title := "w2", ID := "Q", Link := "L", Updated := 0,
    Entries := [wEntry1, wEntry2, wEntry3] }

def eofMsg : String := "XML syntax error on line 3: unexpected EOF"

def cexTruncDoc : RawDoc :=
  { atomDecode := .error eofMsg, rssDecode := .error eofMsg, rdfDecode := .error eofMsg }

def cexTruncSource : ConfigFeed :=
  { Name := "truncated", URL := "http://trunc", Disabled := false }

def wLink : Link := { HRef := "http://h", Rel := "", Typ := "" }

def wGoodItem : RSSItem :=
  { Title := "good", Link := "gl", Description := "gd", GUID := "g1",
    PubDate := "2020-11-23" }

def wEmptyDateItem : RSSItem :=
  { Title := "nodate", Link := "nl", Description := "nd", GUID := "n1", PubDate := "" }

def cexBadDateItem : RSSItem :=
  { Title := "bad", Link := "bl", Description := "bd", GUID := "b1", PubDate := "garbage" }

def wRSSFeedC6 : RSSFeed :=
  { Title := "r6", Links := [wLink], LastBuildDate := "",
    Items := [wGoodItem, wEmptyDateItem] }

def cexRSSFeedC6 : RSSFeed :=
  { Title := "r6x", Links := [wLink], LastBuildDate := "",
    Items := [wGoodItem, cexBadDateItem] }

def wRSSFeedC7 : RSSFeed :=
  { Title := "r7", Links := [], LastBuildDate := "", Items := [] }

def wDocC7 : RawDoc :=
  { atomDecode := .error "expected element type <feed> but have <rss>",
    rssDecode := .ok wRSSFeedC7, rdfDecode := .error "unused" }

def wSourceC7 : ConfigFeed :=
  { Name := "nolinks", URL := "http://nl", Disabled := false }

def cexAtomC9 : AtomFeed :=
  { Title := "a9", Links := [{ HRef := "http://a", Rel := "", Typ := "" }],
    Updated := 0, ID := "urn:cex", Entries := [] }

def cexCanonC9 : Feed :=
  { Title := "a9", ID := "urn:cex", Link := "http://a", Updated := 0,
    Entries := [], Failure := none }

def wAtomC9 : AtomFeed :=
  { Title := "a9w",
    Links := [{ HRef := "http://self", Rel := "self", Typ := "" },
              { HRef := "http://alt", Rel := "alternate", Typ := "" }],
    Updated := 7, ID := "urn:w9", Entries := [] }

def wCanonC9 : Feed :=
  { Title := "a9w", ID := "urn:w9", Link := "http://alt", Updated := 7,
    Entries := [], Failure := none }

/-! ## Lemmas about the delta selector -/

theorem FeedEntry.Copy_eq (e : FeedEntry) : e.Copy = e := rfl

theorem map_Copy (l : List FeedEntry) : l.map FeedEntry.Copy = l := by
  have h : FeedEntry.Copy = fun e => e := funext fun _ => rfl
  rw [h, List.map_id']

theorem pickLoop_mem {limitPerFeed : Nat} {keep : FeedEntry → Bool} :
    ∀ (l acc : List FeedEntry) (e : FeedEntry),
      e ∈ pickLoop limitPerFeed keep l acc → e ∈ acc ∨ (e ∈ l ∧ keep e = true) := by
  intro l
  induction l with
  | nil => intro acc e h; exact Or.inl h
  | cons x rest ih =>
    intro acc e h
    unfold pickLoop at h
    by_cases hk : keep x
    · rw [if_pos hk] at h
      by_cases hl : limitPerFeed ≤ acc.length + 1
      · rw [if_pos hl] at h
        rcases List.mem_append.mp h with h' | h'
        · exact Or.inl h'
        · rcases List.mem_singleton.mp h' with rfl
          exact Or.inr ⟨List.mem_cons_self _ _, hk⟩
      · rw [if_neg hl] at h
        rcases ih (acc ++ [x]) e h with h' | h'
        · rcases List.mem_append.mp h' with h'' | h''
          · exact Or.inl h''
          · rcases List.mem_singleton.mp h'' with rfl
            exact Or.inr ⟨List.mem_cons_self _ _, hk⟩
        · exact Or.inr ⟨List.mem_cons_of_mem _ h'.1, h'.2⟩
    · rw [if_neg hk] at h
      rcases ih acc e h with h' | h'
      · exact Or.inl h'
      · exact Or.inr ⟨List.mem_cons_of_mem _ h'.1, h'.2⟩

theorem pickLoop_eq (limitPerFeed : Nat) (keep : FeedEntry → Bool) :
    ∀ (l acc : List FeedEntry), acc.length < limitPerFeed →
      pickLoop limitPerFeed keep l acc =
        acc ++ (l.filter keep).take (limitPerFeed - acc.length) := by
  intro l
  induction l with
  | nil => intro acc _; simp [pickLoop]
  | cons x rest ih =>
    intro acc hacc
    unfold pickLoop
    by_cases hk : keep x
    · rw [if_pos hk]
      by_cases hl : limitPerFeed ≤ acc.length + 1
      · rw [if_pos hl]
        have h1 : limitPerFeed - acc.length = 1 := by omega
        simp [List.filter_cons, hk, h1]
      · rw [if_neg hl]
        rw [ih (acc ++ [x]) (by simp; omega)]
        obtain ⟨n, hn⟩ : ∃ n, limitPerFeed - acc.length = n + 1 :=
          ⟨limitPerFeed - acc.length - 1, by omega⟩
        have h2 : limitPerFeed - (acc ++ [x]).length = n := by simp; omega
        simp [List.filter_cons, hk, hn, h2, List.take_succ_cons]
        omega
    · rw [if_neg hk]
      rw [ih acc hacc]
      simp [List.filter_cons, hk]

theorem picked_eq (limitPerFeed : Nat) (keep : FeedEntry → Bool)
    (l : List FeedEntry) (h : 1 ≤ limitPerFeed) :
    pickLoop limitPerFeed keep l [] = (l.filter keep).take limitPerFeed := by
  rw [pickLoop_eq limitPerFeed keep l [] (by simpa using h)]
  simp

theorem pickNewFeed_ID (limitPerFeed : Nat) (ts : TS) (f : Feed) :
    (pickNewFeed limitPerFeed ts f).ID = f.ID := rfl

theorem pickNewFeed_Entries (limitPerFeed : Nat) (ts : TS) (f : Feed) :
    (pickNewFeed limitPerFeed ts f).Entries =
      List.insertionSort updatedLE
        (pickLoop limitPerFeed (entryAfter (tsLookup ts f.ID))
          (List.insertionSort updatedGE f.Entries) []) := by
  simp [pickNewFeed, map_Copy]

theorem mem_pickNewFeed {limitPerFeed : Nat} {ts : TS} {f : Feed} {e : FeedEntry}
    (h : e ∈ (pickNewFeed limitPerFeed ts f).Entries) :
    e ∈ f.Entries ∧ entryAfter (tsLookup ts f.ID) e = true := by
  rw [pickNewFeed_Entries, List.mem_insertionSort] at h
  rcases pickLoop_mem _ _ _ h with h' | ⟨hm, hk⟩
  · cases h'
  · rw [List.mem_insertionSort] at hm
    exact ⟨hm, hk⟩

theorem pickNewFeed_Entries_take (limitPerFeed : Nat) (ts : TS) (f : Feed)
    (h : 1 ≤ limitPerFeed) :
    (pickNewFeed limitPerFeed ts f).Entries =
      List.insertionSort updatedLE
        (((List.insertionSort updatedGE f.Entries).filter
            (entryAfter (tsLookup ts f.ID))).take limitPerFeed) := by
  rw [pickNewFeed_Entries, picked_eq _ _ _ h]

theorem pickNewFeed_length (limitPerFeed : Nat) (ts : TS) (f : Feed)
    (h : 1 ≤ limitPerFeed) :
    (pickNewFeed limitPerFeed ts f).Entries.length =
      min limitPerFeed (f.Entries.countP (entryAfter (tsLookup ts f.ID))) := by
  rw [pickNewFeed_Entries_take _ _ _ h, List.length_insertionSort, List.length_take,
    ← List.countP_eq_length_filter]
  congr 1
  exact (List.perm_insertionSort updatedGE f.Entries).countP_eq _

theorem pickNewFeed_sorted (limitPerFeed : Nat) (ts : TS) (f : Feed) :
    List.Sorted updatedLE (pickNewFeed limitPerFeed ts f).Entries := by
  rw [pickNewFeed_Entries]
  exact List.sorted_insertionSort updatedLE _

theorem pickNewFeed_boundary {limitPerFeed : Nat} {ts : TS} {f : Feed}
    (hpos : 1 ≤ limitPerFeed) {e : FeedEntry} (he : e ∈ f.Entries)
    (hk : entryAfter (tsLookup ts f.ID) e = true)
    (hn : e ∉ (pickNewFeed limitPerFeed ts f).Entries) :
    ∀ e' ∈ (pickNewFeed limitPerFeed ts f).Entries, e.Updated ≤ e'.Updated := by
  intro e' he'
  set keep := entryAfter (tsLookup ts f.ID) with hkeep
  set L := (List.insertionSort updatedGE f.Entries).filter keep with hL
  have hmemL : e ∈ L := by
    rw [hL, List.mem_filter, List.mem_insertionSort]
    exact ⟨he, hk⟩
  rw [pickNewFeed_Entries_take _ _ _ hpos, List.mem_insertionSort] at hn he'
  have hsorted : List.Pairwise updatedGE L :=
    (List.sorted_insertionSort updatedGE f.Entries).filter keep
  have hsplit : L = L.take limitPerFeed ++ L.drop limitPerFeed :=
    (List.take_append_drop _ _).symm
  have hdrop : e ∈ L.drop limitPerFeed := by
    rcases List.mem_append.mp (hsplit ▸ hmemL) with h' | h'
    · exact absurd h' hn
    · exact h'
  have := (List.pairwise_append.mp (hsplit ▸ hsorted)).2.2
  exact this e' he' e hdrop

theorem mem_pickNewData {fs : List Feed} {limitPerFeed : Nat} {ts : TS} {g : Feed}
    (h : g ∈ pickNewData fs limitPerFeed ts) :
    ∃ f ∈ fs, g = pickNewFeed limitPerFeed ts f ∧ g.Entries ≠ [] := by
  induction fs with
  | nil => cases h
  | cons f rest ih =>
    unfold pickNewData at h
    by_cases h0 : 0 < (pickNewFeed limitPerFeed ts f).Entries.length
    · rw [if_pos h0] at h
      rcases List.mem_cons.mp h with rfl | h'
      · refine ⟨f, List.mem_cons_self _ _, rfl, ?_⟩
        intro hnil
        rw [hnil] at h0
        exact absurd h0 (by simp)
      · obtain ⟨f', hf', hg, hne⟩ := ih h'
        exact ⟨f', List.mem_cons_of_mem _ hf', hg, hne⟩
    · rw [if_neg h0] at h
      obtain ⟨f', hf', hg, hne⟩ := ih h
      exact ⟨f', List.mem_cons_of_mem _ hf', hg, hne⟩

/-! ## Lemmas about the watermark update -/

theorem tsLookup_tsSet_self (ts : TS) (k : String) (v : Int) :
    tsLookup (tsSet ts k v) k = some v := by
  induction ts with
  | nil => simp [tsSet, tsLookup]
  | cons p rest ih =>
    obtain ⟨k', v'⟩ := p
    by_cases hk : k' = k
    · simp [tsSet, tsLookup, hk]
    · simp [tsSet, tsLookup, hk, ih]

theorem tsLookup_tsSet_ne (ts : TS) {k k' : String} (h : k ≠ k') (v : Int) :
    tsLookup (tsSet ts k v) k' = tsLookup ts k' := by
  induction ts with
  | nil => simp [tsSet, tsLookup, h]
  | cons p rest ih =>
    obtain ⟨k0, v0⟩ := p
    by_cases hk : k0 = k
    · subst hk
      simp [tsSet, tsLookup, h]
    · simp [tsSet, tsLookup, hk, ih]

theorem foldMax_cons (v : Int) (e : FeedEntry) (rest : List FeedEntry) :
    foldMax v (e :: rest) = foldMax (max v e.Updated) rest := rfl

theorem le_foldMax (l : List FeedEntry) : ∀ v : Int, v ≤ foldMax v l := by
  induction l with
  | nil => intro v; simp [foldMax]
  | cons e rest ih =>
    intro v
    rw [foldMax_cons]
    exact le_trans (le_max_left _ _) (ih _)

theorem foldMax_le_of_mem {l : List FeedEntry} {e : FeedEntry} (h : e ∈ l) :
    ∀ v : Int, e.Updated ≤ foldMax v l := by
  induction l with
  | nil => cases h
  | cons x rest ih =>
    intro v
    rw [foldMax_cons]
    rcases List.mem_cons.mp h with rfl | h'
    · exact le_trans (le_max_right _ _) (le_foldMax _ _)
    · exact ih h' _

theorem foldMax_cases (l : List FeedEntry) :
    ∀ v : Int, foldMax v l = v ∨ ∃ e ∈ l, foldMax v l = e.Updated := by
  induction l with
  | nil => intro v; exact Or.inl rfl
  | cons x rest ih =>
    intro v
    rw [foldMax_cons]
    rcases le_total x.Updated v with hle | hle
    · rw [max_eq_left hle]
      rcases ih v with h | ⟨e, he, hh⟩
      · exact Or.inl h
      · exact Or.inr ⟨e, List.mem_cons_of_mem _ he, hh⟩
    · rw [max_eq_right hle]
      rcases ih x.Updated with h | ⟨e, he, hh⟩
      · exact Or.inr ⟨x, List.mem_cons_self _ _, h⟩
      · exact Or.inr ⟨e, List.mem_cons_of_mem _ he, hh⟩

theorem advanceEntries_lookup_ne (fid : String) {k : String} (h : fid ≠ k) :
    ∀ (l : List FeedEntry) (ts : TS),
      tsLookup (advanceEntries ts fid l) k = tsLookup ts k := by
  intro l
  induction l with
  | nil => intro ts; rfl
  | cons e rest ih =>
    intro ts
    simp only [advanceEntries]
    by_cases hc : (tsLookup ts fid).getD 0 < e.Updated
    · rw [if_pos hc, ih, tsLookup_tsSet_ne _ h]
    · rw [if_neg hc, ih]

theorem advanceEntries_lookup (fid : String) :
    ∀ (l : List FeedEntry) (ts : TS) (v : Int), tsLookup ts fid = some v →
      tsLookup (advanceEntries ts fid l) fid = some (foldMax v l) := by
  intro l
  induction l with
  | nil => intro ts v hv; simpa [advanceEntries, foldMax] using hv
  | cons e rest ih =>
    intro ts v hv
    simp only [advanceEntries]
    rw [hv]
    simp only [Option.getD_some]
    rw [foldMax_cons]
    by_cases hc : v < e.Updated
    · rw [if_pos hc, ih _ _ (tsLookup_tsSet_self ts fid e.Updated),
        max_eq_right (le_of_lt hc)]
    · rw [if_neg hc, ih _ _ hv, max_eq_left (le_of_not_lt hc)]

theorem updateFeedTS_lookup_ne {ts ts' : TS} {f : Feed}
    (h : updateFeedTS ts f = some ts') {k : String} (hk : f.ID ≠ k) :
    tsLookup ts' k = tsLookup ts k := by
  unfold updateFeedTS at h
  cases hl : tsLookup ts f.ID with
  | some v =>
    rw [hl] at h
    injection h with h
    rw [← h, advanceEntries_lookup_ne _ hk]
  | none =>
    rw [hl] at h
    cases hE : f.Entries with
    | nil => rw [hE] at h; cases h
    | cons e0 rest =>
      rw [hE] at h
      injection h with h
      rw [← h, advanceEntries_lookup_ne _ hk, tsLookup_tsSet_ne _ hk]

theorem updateFeedTS_bound {ts ts' : TS} {f : Feed}
    (h : updateFeedTS ts f = some ts') :
    ∃ M, tsLookup ts' f.ID = some M ∧ ∀ e ∈ f.Entries, e.Updated ≤ M := by
  unfold updateFeedTS at h
  cases hl : tsLookup ts f.ID with
  | some v =>
    rw [hl] at h
    injection h with h
    refine ⟨foldMax v f.Entries, ?_, ?_⟩
    · rw [← h]
      exact advanceEntries_lookup _ _ _ _ hl
    · intro e he
      exact foldMax_le_of_mem he v
  | none =>
    rw [hl] at h
    cases hE : f.Entries with
    | nil => rw [hE] at h; cases h
    | cons e0 rest =>
      rw [hE] at h
      injection h with h
      refine ⟨foldMax e0.Updated (e0 :: rest), ?_, ?_⟩
      · rw [← h]
        exact advanceEntries_lookup _ _ _ _ (tsLookup_tsSet_self ts f.ID e0.Updated)
      · intro e he
        exact foldMax_le_of_mem he _

theorem updateFeedTS_mono {ts ts' : TS} {f : Feed}
    (h : updateFeedTS ts f = some ts') {k : String} {v : Int}
    (hv : tsLookup ts k = some v) :
    ∃ v', tsLookup ts' k = some v' ∧ v ≤ v' := by
  by_cases hk : f.ID = k
  · subst hk
    unfold updateFeedTS at h
    rw [hv] at h
    injection h with h
    exact ⟨foldMax v f.Entries, by rw [← h]; exact advanceEntries_lookup _ _ _ _ hv,
      le_foldMax _ _⟩
  · rw [updateFeedTS_lookup_ne h hk, hv]
    exact ⟨v, rfl, le_refl v⟩

theorem updateFeedTS_exact {ts ts' : TS} {f : Feed}
    (h : updateFeedTS ts f = some ts') (hne : f.Entries ≠ [])
    (hq : ∀ e ∈ f.Entries, entryAfter (tsLookup ts f.ID) e = true) :
    tsLookup ts' f.ID = some (maxUpd f.Entries) := by
  unfold updateFeedTS at h
  cases hl : tsLookup ts f.ID with
  | none =>
    rw [hl] at h
    cases hE : f.Entries with
    | nil => exact absurd hE hne
    | cons e0 rest =>
      rw [hE] at h
      injection h with h
      rw [← h, advanceEntries_lookup _ _ _ _ (tsLookup_tsSet_self ts f.ID e0.Updated),
        show maxUpd (e0 :: rest) = foldMax e0.Updated rest from rfl, foldMax_cons, max_self]
  | some v =>
    rw [hl] at h
    injection h with h
    rw [← h, advanceEntries_lookup _ _ _ _ hl]
    cases hE : f.Entries with
    | nil => exact absurd hE hne
    | cons e0 rest =>
      have hv0 : v < e0.Updated := by
        have := hq e0 (by rw [hE]; exact List.mem_cons_self _ _)
        rw [hl] at this
        simpa [entryAfter] using this
      rw [show maxUpd (e0 :: rest) = foldMax e0.Updated rest from rfl, foldMax_cons,
        max_eq_right (le_of_lt hv0)]

theorem updateTimestamps_mono {nd : List Feed} :
    ∀ {ts ts' : TS}, updateTimestamps ts nd = some ts' →
      ∀ {k : String} {v : Int}, tsLookup ts k = some v →
        ∃ v', tsLookup ts' k = some v' ∧ v ≤ v' := by
  induction nd with
  | nil =>
    intro ts ts' h k v hv
    unfold updateTimestamps at h
    injection h with h
    exact ⟨v, by rw [← h]; exact hv, le_refl v⟩
  | cons f rest ih =>
    intro ts ts' h k v hv
    unfold updateTimestamps at h
    cases hft : updateFeedTS ts f with
    | none => rw [hft] at h; cases h
    | some ts1 =>
      rw [hft] at h
      obtain ⟨v1, hv1, hle1⟩ := updateFeedTS_mono hft hv
      obtain ⟨v2, hv2, hle2⟩ := ih h hv1
      exact ⟨v2, hv2, le_trans hle1 hle2⟩

theorem updateTimestamps_lookup_ne {nd : List Feed} {k : String}
    (hk : ∀ f ∈ nd, f.ID ≠ k) :
    ∀ {ts ts' : TS}, updateTimestamps ts nd = some ts' →
      tsLookup ts' k = tsLookup ts k := by
  induction nd with
  | nil =>
    intro ts ts' h
    unfold updateTimestamps at h
    injection h with h
    rw [h]
  | cons f rest ih =>
    intro ts ts' h
    unfold updateTimestamps at h
    cases hft : updateFeedTS ts f with
    | none => rw [hft] at h; cases h
    | some ts1 =>
      rw [hft] at h
      rw [ih (fun g hg => hk g (List.mem_cons_of_mem _ hg)) h,
        updateFeedTS_lookup_ne hft (hk f (List.mem_cons_self _ _))]

theorem updateTimestamps_cons (ts : TS) (f : Feed) (rest : List Feed) :
    updateTimestamps ts (f :: rest) =
      (updateFeedTS ts f).bind (fun t => updateTimestamps t rest) := by
  cases h : updateFeedTS ts f <;> simp [updateTimestamps, h]

theorem updateTimestamps_append (l1 l2 : List Feed) :
    ∀ ts : TS, updateTimestamps ts (l1 ++ l2) =
      (updateTimestamps ts l1).bind (fun t => updateTimestamps t l2) := by
  induction l1 with
  | nil => intro ts; rfl
  | cons f rest ih =>
    intro ts
    rw [List.cons_append, updateTimestamps_cons, updateTimestamps_cons]
    cases updateFeedTS ts f with
    | none => rfl
    | some ts1 => simpa using ih ts1

theorem maxUpd_bound : ∀ (l : List FeedEntry), ∀ e ∈ l, e.Updated ≤ maxUpd l := by
  intro l e he
  cases l with
  | nil => cases he
  | cons e0 rest =>
    rcases List.mem_cons.mp he with rfl | h'
    · exact le_foldMax rest e.Updated
    · exact foldMax_le_of_mem h' _

theorem maxUpd_mem {l : List FeedEntry} (hne : l ≠ []) :
    ∃ e ∈ l, maxUpd l = e.Updated := by
  cases l with
  | nil => exact absurd rfl hne
  | cons e0 rest =>
    rcases foldMax_cases rest e0.Updated with h | ⟨e, he, hh⟩
    · exact ⟨e0, List.mem_cons_self _ _, h⟩
    · exact ⟨e, List.mem_cons_of_mem _ he, hh⟩

/-! ## Claims about the delta selector and the watermark update -/

/-- C1: for every feed, every positive limit and every watermark map, the
entries `pickNewData` selects for the feed are disjoint from the entries a
second `pickNewData` run selects once `updateTimestamps` has absorbed the
first run's selection — no entry is ever reported twice. -/
theorem C1_selectNew_roundTrip_disjoint (f : Feed) (limitPerFeed : Nat) (ts : TS)
    (_hpos : 1 ≤ limitPerFeed) (ts' : TS)
    (hup : updateTimestamps ts (pickNewData [f] limitPerFeed ts) = some ts') :
    ∀ e ∈ (pickNewFeed limitPerFeed ts f).Entries,
      e ∉ (pickNewFeed limitPerFeed ts' f).Entries := by
  intro e he hmem2
  by_cases h0 : 0 < (pickNewFeed limitPerFeed ts f).Entries.length
  · have hnd : pickNewData [f] limitPerFeed ts = [pickNewFeed limitPerFeed ts f] := by
      unfold pickNewData
      rw [if_pos h0]
      rfl
    rw [hnd, updateTimestamps_cons] at hup
    cases hft : updateFeedTS ts (pickNewFeed limitPerFeed ts f) with
    | none => rw [hft] at hup; cases hup
    | some ts1 =>
      rw [hft] at hup
      have hts1 : ts1 = ts' := by
        simpa [updateTimestamps] using hup
      subst hts1
      obtain ⟨M, hM, hbd⟩ := updateFeedTS_bound hft
      rw [pickNewFeed_ID] at hM
      have h2 := (mem_pickNewFeed hmem2).2
      rw [hM] at h2
      have hlt : M < e.Updated := by simpa [entryAfter] using h2
      have hle : e.Updated ≤ M := hbd e he
      omega
  · have : (pickNewFeed limitPerFeed ts f).Entries = [] :=
      List.length_eq_zero.mp (by omega)
    rw [this] at he
    cases he

/-- Witness for C1: a two-entry feed, limit 1, empty watermark map — the
newest entry is selected, and is not selected again after the update. -/
theorem C1_witness :
    1 ≤ 1 ∧
      updateTimestamps [] (pickNewData [wFeedC1] 1 []) = some [("X", 2)] ∧
      wEntry2 ∈ (pickNewFeed 1 [] wFeedC1).Entries ∧
      wEntry2 ∉ (pickNewFeed 1 [("X", 2)] wFeedC1).Entries :=
  ⟨Nat.le_refl 1, by decide, by decide,
    C1_selectNew_roundTrip_disjoint wFeedC1 1 [] (Nat.le_refl 1) [("X", 2)] (by decide)
      wEntry2 (by decide)⟩

/-- C10: `updateTimestamps` never moves an existing watermark backwards:
a key present before the call maps afterwards to an equal or later
instant. -/
theorem C10_updateTimestamps_monotone (ts : TS) (nd : List Feed) (ts' : TS)
    (hup : updateTimestamps ts nd = some ts') (k : String) (v : Int)
    (hv : tsLookup ts k = some v) :
    ∃ v', tsLookup ts' k = some v' ∧ v ≤ v' :=
  updateTimestamps_mono hup hv

/-- Witness for C10 at a concrete input. -/
theorem C10_witness :
    updateTimestamps [("X", 1)] [wFeedC10] = some [("X", 3)] ∧
      tsLookup [("X", 1)] "X" = some 1 ∧
      tsLookup [("X", 3)] "X" = some 3 ∧ (1 : Int) ≤ 3 := by
  refine ⟨by decide, by decide, by decide, ?_⟩
  obtain ⟨v', hv', hle⟩ :=
    C10_updateTimestamps_monotone [("X", 1)] [wFeedC10] [("X", 3)] (by decide) "X" 1
      (by decide)
  have h3 : tsLookup [("X", 3)] "X" = some 3 := by decide
  have hv3 : v' = 3 := Option.some.inj (hv'.symm.trans h3)
  exact hv3 ▸ hle

/-- C3 counterexample: at `limit = 0` the selection loop still keeps one
entry (the length test runs after the append), so "at most `limit`
entries for every limit" is false at `limit = 0`. -/
theorem C3_counterexample :
    (pickNewData [cexFeedC3] 0 []).map (fun g => g.Entries.length) = [1] ∧
      ¬ (1 ≤ 0) := ⟨by decide, by decide⟩

/-- C3 (amended: positive limit): every feed returned by `pickNewData`
holds at most `limitPerFeed` entries, sorted ascending by `Updated`. -/
theorem C3_limit_and_sorted (fs : List Feed) (limitPerFeed : Nat) (ts : TS)
    (hpos : 1 ≤ limitPerFeed) (g : Feed) (hg : g ∈ pickNewData fs limitPerFeed ts) :
    g.Entries.length ≤ limitPerFeed ∧ List.Sorted updatedLE g.Entries := by
  obtain ⟨f, _, rfl, _⟩ := mem_pickNewData hg
  exact ⟨by rw [pickNewFeed_length _ _ _ hpos]; exact min_le_left _ _,
    pickNewFeed_sorted _ _ _⟩

/-- Witness for C3: three entries, no prior watermark, limit 3 — all
three are returned, ordered ascending. -/
theorem C3_witness :
    1 ≤ 3 ∧ pickNewFeed 3 [] wFeedC3 ∈ pickNewData [wFeedC3] 3 [] ∧
      (pickNewFeed 3 [] wFeedC3).Entries.map FeedEntry.Updated = [1, 2, 3] ∧
      ((pickNewFeed 3 [] wFeedC3).Entries.length ≤ 3 ∧
        List.Sorted updatedLE (pickNewFeed 3 [] wFeedC3).Entries) :=
  ⟨by decide, by decide, by decide,
    C3_limit_and_sorted [wFeedC3] 3 [] (by decide) _ (by decide)⟩

/-- C4 counterexample: at `limit = 0` a qualifying feed still appears in
the output with one entry, not the "newest 0". -/
theorem C4_counterexample :
    (pickNewFeed 0 [] cexFeedC4).Entries.length = 1 ∧
      min 0 (cexFeedC4.Entries.countP (entryAfter (tsLookup [] cexFeedC4.ID))) = 0 ∧
      (1 : Nat) ≠ 0 ∧ pickNewData [cexFeedC4] 0 [] ≠ [] :=
  ⟨by decide, by decide, by decide, by decide⟩

/-- C4 (amended: positive limit): the kept entries are original entries
that are strictly newer than the feed's watermark (all entries qualify
when the feed has no watermark — first-run semantics); exactly
`min limit #qualifying` of them are kept; every qualifying entry that was
dropped is no newer than every kept entry (the newest qualify first); and
a feed appears in the output only if at least one entry was kept. -/
theorem C4_selection_characterization (f : Feed) (limitPerFeed : Nat) (ts : TS)
    (hpos : 1 ≤ limitPerFeed) :
    (∀ e ∈ (pickNewFeed limitPerFeed ts f).Entries,
        e ∈ f.Entries ∧ entryAfter (tsLookup ts f.ID) e = true) ∧
      (pickNewFeed limitPerFeed ts f).Entries.length =
        min limitPerFeed (f.Entries.countP (entryAfter (tsLookup ts f.ID))) ∧
      (tsLookup ts f.ID = none →
        (pickNewFeed limitPerFeed ts f).Entries.length =
          min limitPerFeed f.Entries.length) ∧
      (∀ e ∈ f.Entries, entryAfter (tsLookup ts f.ID) e = true →
        e ∉ (pickNewFeed limitPerFeed ts f).Entries →
        ∀ e' ∈ (pickNewFeed limitPerFeed ts f).Entries, e.Updated ≤ e'.Updated) ∧
      (∀ (fs : List Feed) (g : Feed), g ∈ pickNewData fs limitPerFeed ts →
        g.Entries ≠ []) := by
  refine ⟨fun e he => mem_pickNewFeed he, pickNewFeed_length _ _ _ hpos, ?_, ?_, ?_⟩
  · intro hnone
    rw [pickNewFeed_length _ _ _ hpos, hnone]
    congr 1
    exact List.countP_eq_length.mpr (fun a _ => rfl)
  · intro e he hk hn
    exact pickNewFeed_boundary hpos he hk hn
  · intro fs g hg
    obtain ⟨_, _, _, hne⟩ := mem_pickNewData hg
    exact hne

/-- Witness for C4: entries 5, 1, 3 with watermark 1 and limit 2 — the
two newest qualifying entries (3 and 5) are kept, ascending. -/
theorem C4_witness :
    1 ≤ 2 ∧
      (pickNewFeed 2 [("W", 1)] wFeedC4).Entries.map FeedEntry.Updated = [3, 5] ∧
      (pickNewFeed 2 [("W", 1)] wFeedC4).Entries.length =
        min 2 (wFeedC4.Entries.countP (entryAfter (tsLookup [("W", 1)] wFeedC4.ID))) :=
  ⟨by decide, by decide,
    (C4_selection_characterization wFeedC4 2 [("W", 1)] (by decide)).2.1⟩

/-- C2 counterexample: two selected feeds share the ID `"X"`; after
`updateTimestamps` the stored watermark is `5`, but the maximum `Updated`
among the second feed's selected entries is `1` — the claim fails for the
second feed. -/
theorem C2_counterexample :
    pickNewData [cexFeedC2a, cexFeedC2b] 1 [] =
        [pickNewFeed 1 [] cexFeedC2a, pickNewFeed 1 [] cexFeedC2b] ∧
      updateTimestamps [] (pickNewData [cexFeedC2a, cexFeedC2b] 1 []) =
        some [("X", 5)] ∧
      (pickNewFeed 1 [] cexFeedC2b).ID = "X" ∧
      (pickNewFeed 1 [] cexFeedC2b).Entries.map FeedEntry.Updated = [1] ∧
      maxUpd (pickNewFeed 1 [] cexFeedC2b).Entries = 1 ∧
      tsLookup [("X", 5)] "X" = some 5 ∧ (5 : Int) ≠ 1 :=
  ⟨by decide, by decide, by decide, by decide, by decide, by decide, by decide⟩

/-- C2 (amended: the selected feeds carry pairwise distinct IDs): after
`updateTimestamps`, each selected feed's watermark equals the maximum
`Updated` instant among the entries selected for it — entries excluded by
the limit never advance the watermark. -/
theorem C2_watermark_eq_max_selected (fs : List Feed) (limitPerFeed : Nat)
    (ts ts' : TS) (f : Feed) (hf : f ∈ pickNewData fs limitPerFeed ts)
    (hdist : (pickNewData fs limitPerFeed ts).Pairwise (fun a b => a.ID ≠ b.ID))
    (hup : updateTimestamps ts (pickNewData fs limitPerFeed ts) = some ts') :
    tsLookup ts' f.ID = some (maxUpd f.Entries) ∧
      (∀ e ∈ f.Entries, e.Updated ≤ maxUpd f.Entries) ∧
      (∃ e ∈ f.Entries, maxUpd f.Entries = e.Updated) := by
  obtain ⟨g, hgfs, hfg, hne⟩ := mem_pickNewData hf
  have hqual : ∀ e ∈ f.Entries, entryAfter (tsLookup ts f.ID) e = true := by
    intro e he
    rw [hfg, pickNewFeed_ID]
    rw [hfg] at he
    exact (mem_pickNewFeed he).2
  obtain ⟨pre, post, hsplit⟩ := List.append_of_mem hf
  rw [hsplit] at hdist hup
  obtain ⟨-, h2, h3⟩ := List.pairwise_append.mp hdist
  have hpre : ∀ a ∈ pre, a.ID ≠ f.ID := fun a ha => h3 a ha f (List.mem_cons_self _ _)
  have hpost : ∀ b ∈ post, b.ID ≠ f.ID := fun b hb =>
    Ne.symm ((List.pairwise_cons.mp h2).1 b hb)
  rw [updateTimestamps_append] at hup
  cases hA : updateTimestamps ts pre with
  | none => rw [hA] at hup; cases hup
  | some tsA =>
    rw [hA] at hup
    simp only [Option.bind] at hup
    rw [updateTimestamps_cons] at hup
    cases hB : updateFeedTS tsA f with
    | none => rw [hB] at hup; cases hup
    | some tsB =>
      rw [hB] at hup
      simp only [Option.bind] at hup
      have hAkeep : tsLookup tsA f.ID = tsLookup ts f.ID :=
        updateTimestamps_lookup_ne hpre hA
      have hqualA : ∀ e ∈ f.Entries, entryAfter (tsLookup tsA f.ID) e = true := by
        rw [hAkeep]; exact hqual
      have hBval : tsLookup tsB f.ID = some (maxUpd f.Entries) :=
        updateFeedTS_exact hB hne hqualA
      have hCkeep : tsLookup ts' f.ID = tsLookup tsB f.ID :=
        updateTimestamps_lookup_ne hpost hup
      exact ⟨hCkeep.trans hBval, maxUpd_bound f.Entries, maxUpd_mem hne⟩

/-- Witness for C2: one feed `"Q"` with entries 1, 2, 3 and limit 2 —
after the update the watermark equals 3, the maximum selected instant. -/
theorem C2_witness :
    pickNewFeed 2 [] wFeedC2 ∈ pickNewData [wFeedC2] 2 [] ∧
      (pickNewData [wFeedC2] 2 []).Pairwise (fun a b => a.ID ≠ b.ID) ∧
      updateTimestamps [] (pickNewData [wFeedC2] 2 []) = some [("Q", 3)] ∧
      tsLookup [("Q", 3)] (pickNewFeed 2 [] wFeedC2).ID =
        some (maxUpd (pickNewFeed 2 [] wFeedC2).Entries) :=
  ⟨by decide, by decide, by decide,
    (C2_watermark_eq_max_selected [wFeedC2] 2 [] [("Q", 3)] _ (by decide) (by decide)
      (by decide)).1⟩

/-! ## Claims about the decode pipeline -/

/-- C5: a source whose three dialect decodes all fail with a final
`"unexpected EOF"` error is recorded as a success holding a nil feed, so
the run reports zero failures for it — but the nil feed then makes
`pickNewData` dereference a nil pointer and panic, so the source does
disturb (indeed kills) the processing of the rest of the run.  This
evaluates the code at the failing input. -/
theorem C5_truncated_source_panics :
    unmarshal cexTruncDoc = some (Except.ok none) ∧
      downloadFeeds [(cexTruncSource, Except.ok cexTruncDoc)] = some ([none], []) ∧
      pickNewDataNil [none] 3 [] = none :=
  ⟨rfl, rfl, rfl⟩

/-- Skipping an empty-dated item: the item loop of `RSSFeed.Feed` yields
the same result with the item as without it. -/
theorem rssEntriesLoop_skip (t : String) (i : RSSItem) (hPD : i.PubDate = "") :
    ∀ pre post : List RSSItem,
      rssEntriesLoop t (pre ++ i :: post) = rssEntriesLoop t (pre ++ post) := by
  intro pre
  induction pre with
  | nil => intro post; simp [rssEntriesLoop, hPD]
  | cons j rest ih =>
    intro post
    simp only [List.cons_append, rssEntriesLoop, List.append_eq]
    rw [ih]

/-- C6 counterexample: an RSS item with the nonempty unparseable date
`"garbage"` makes the WHOLE feed conversion fail — an entry-level
timestamp parse failure is fatal, not a dropped entry; likewise an
unparseable `xmlTime` element aborts the surrounding decode. -/
theorem C6_counterexample :
    RSSFeed.Feed cexRSSFeedC6 =
        Except.error
          "pubDate parse error for feed title=r6x str=garbage err=failed to parse time string garbage" ∧
      cexBadDateItem ∈ cexRSSFeedC6.Items ∧ cexBadDateItem.PubDate ≠ "" ∧
      (RSSFeed.Feed { cexRSSFeedC6 with Items := [wGoodItem] }).map
          (fun g => g.Entries.length) = Except.ok 1 ∧
      xmlTimeUnmarshalXML (Except.ok "garbage") =
        Except.error "failed to parse time string garbage" :=
  ⟨rfl, by decide, by decide, rfl, rfl⟩

/-- C6 (amended): an entry whose date string is EMPTY is dropped and the
feed converts exactly as if that entry were absent — the rest is kept and
the feed still decodes whenever the rest does.  (An entry with a nonempty
unparseable date is fatal instead; see the counterexample.) -/
theorem C6_empty_date_entry_dropped (f : RSSFeed) (pre post : List RSSItem)
    (i : RSSItem) (hItems : f.Items = pre ++ i :: post) (hPD : i.PubDate = "") :
    RSSFeed.Feed f = RSSFeed.Feed { f with Items := pre ++ post } := by
  unfold RSSFeed.Feed
  rw [hItems, rssEntriesLoop_skip _ _ hPD]

/-- Witness for C6 at a concrete input. -/
theorem C6_witness :
    wRSSFeedC6.Items = [wGoodItem] ++ wEmptyDateItem :: [] ∧
      wEmptyDateItem.PubDate = "" ∧
      RSSFeed.Feed wRSSFeedC6 = RSSFeed.Feed { wRSSFeedC6 with Items := [wGoodItem] ++ [] } :=
  ⟨rfl, rfl, C6_empty_date_entry_dropped wRSSFeedC6 [wGoodItem] [] wEmptyDateItem rfl rfl⟩

/-- A source whose `downloadFeed` fails contributes exactly one failure
feed carrying the source's name, URL and the error. -/
theorem downloadFeeds_cons_err {fc : ConfigFeed} (hdis : fc.Disabled = false)
    {r : Except String RawDoc} {e : String}
    (hr : downloadFeed r = some (Except.error e)) (rest : List (ConfigFeed × Except String RawDoc)) :
    downloadFeeds ((fc, r) :: rest) = (downloadFeeds rest).map (fun p =>
      (p.1, { Title := fc.Name, ID := "", Link := fc.URL, Updated := 0,
              Entries := [], Failure := some e } :: p.2)) := by
  unfold downloadFeeds
  rw [hdis, hr]
  simp
  rw [← downloadFeeds.eq_def]

/-- C7: a source whose bytes decode structurally as RSS with zero channel
link elements is reported as exactly one failure carrying the source's
name and the missing-link error; it contributes no feed to the successes
and hence no entries to the new-entries output. -/
theorem C7_rss_no_link_single_failure (fc : ConfigFeed) (doc : RawDoc) (ae : String)
    (rss : RSSFeed) (limitPerFeed : Nat) (ts : TS) (hdis : fc.Disabled = false)
    (ha : doc.atomDecode = Except.error ae) (hr : doc.rssDecode = Except.ok rss)
    (hl : rss.Links = []) :
    downloadFeeds [(fc, Except.ok doc)] =
        some ([], [{ Title := fc.Name, ID := "", Link := fc.URL, Updated := 0,
                     Entries := [], Failure := some (rssMissingLinkMsg rss.Title) }]) ∧
      pickNewDataNil [] limitPerFeed ts = some [] := by
  refine ⟨?_, rfl⟩
  have hu : downloadFeed (Except.ok doc) =
      some (Except.error (rssMissingLinkMsg rss.Title)) := by
    obtain ⟨ad, rd, dd⟩ := doc
    obtain ⟨ti, ls, lbd, its⟩ := rss
    simp only at ha hr hl
    subst ha
    subst hr
    subst hl
    rfl
  rw [downloadFeeds_cons_err hdis hu []]
  rfl

/-- Witness for C7 at a concrete input. -/
theorem C7_witness :
    wSourceC7.Disabled = false ∧
      wDocC7.atomDecode = Except.error "expected element type <feed> but have <rss>" ∧
      wDocC7.rssDecode = Except.ok wRSSFeedC7 ∧ wRSSFeedC7.Links = [] ∧
      downloadFeeds [(wSourceC7, Except.ok wDocC7)] =
        some ([], [{ Title := "nolinks", ID := "", Link := "http://nl", Updated := 0,
                     Entries := [], Failure := some (rssMissingLinkMsg "r7") }]) ∧
      pickNewDataNil [] 3 [] = some [] := by
  have h := C7_rss_no_link_single_failure wSourceC7 wDocC7
    "expected element type <feed> but have <rss>" wRSSFeedC7 3 [] rfl rfl rfl rfl
  exact ⟨rfl, rfl, rfl, rfl, h.1, h.2⟩

/-- The first link whose `rel` is not `"self"` wins. -/
theorem atomLink_first : ∀ (pre : List Link) (l : Link) (post : List Link),
    (∀ p ∈ pre, p.Rel = "self") → l.Rel ≠ "self" →
      atomLink (pre ++ l :: post) = l.HRef := by
  intro pre
  induction pre with
  | nil => intro l post _ hl; simp [atomLink, hl]
  | cons p rest ih =>
    intro l post hpre hl
    have hp : p.Rel = "self" := hpre p (List.mem_cons_self _ _)
    simp only [List.cons_append, atomLink]
    rw [if_neg (fun hC => hC hp)]
    exact ih l post (fun q hq => hpre q (List.mem_cons_of_mem _ hq)) hl

/-- When every link is a self link, `cf.Link` keeps its zero value. -/
theorem atomLink_all_self : ∀ ls : List Link,
    (∀ l ∈ ls, l.Rel = "self") → atomLink ls = "" := by
  intro ls
  induction ls with
  | nil => intro _; rfl
  | cons p rest ih =>
    intro h
    have hp := h p (List.mem_cons_self _ _)
    unfold atomLink
    rw [if_neg (fun hC => hC hp)]
    exact ih (fun q hq => h q (List.mem_cons_of_mem _ hq))

/-- C9 counterexample: the canonical Atom feed's `ID` is the `id` element
even when a non-`self` link exists — the first non-`self` link's href
becomes `Link`, not the identity. -/
theorem C9_counterexample :
    AtomFeed.Feed cexAtomC9 = some cexCanonC9 ∧ cexCanonC9.ID = "urn:cex" ∧
      cexAtomC9.Links.map Link.Rel = [""] ∧
      cexAtomC9.Links.map Link.HRef = ["http://a"] ∧
      cexCanonC9.ID ≠ "http://a" :=
  ⟨rfl, rfl, rfl, rfl, by decide⟩

/-- C9 (amended): for every successfully converted Atom feed the identity
equals the feed's `id` element, and the first link whose rel is not
`"self"` supplies the human-facing `Link` (empty when all links are
self links). -/
theorem C9_atom_identity (f : AtomFeed) (cf : Feed) (h : AtomFeed.Feed f = some cf) :
    cf.ID = f.ID ∧ cf.Link = atomLink f.Links ∧
      (∀ (pre : List Link) (l : Link) (post : List Link),
        f.Links = pre ++ l :: post → (∀ p ∈ pre, p.Rel = "self") → l.Rel ≠ "self" →
          cf.Link = l.HRef) ∧
      ((∀ l ∈ f.Links, l.Rel = "self") → cf.Link = "") := by
  unfold AtomFeed.Feed at h
  cases hE : atomEntriesLoop f.Entries with
  | none => rw [hE] at h; cases h
  | some es =>
    rw [hE] at h
    simp only [Option.map_some'] at h
    injection h with h
    subst h
    refine ⟨rfl, rfl, ?_, ?_⟩
    · intro pre l post hsplit hpre hl
      show atomLink f.Links = l.HRef
      rw [hsplit]
      exact atomLink_first pre l post hpre hl
    · intro hall
      show atomLink f.Links = ""
      exact atomLink_all_self f.Links hall

/-- Witness for C9 at a concrete input. -/
theorem C9_witness :
    AtomFeed.Feed wAtomC9 = some wCanonC9 ∧
      wCanonC9.ID = wAtomC9.ID ∧ wCanonC9.Link = atomLink wAtomC9.Links :=
  ⟨rfl, (C9_atom_identity wAtomC9 wCanonC9 rfl).1,
    (C9_atom_identity wAtomC9 wCanonC9 rfl).2.1⟩

/-! ## Claim about the time normalizer -/

theorem firstSome_eq_none {α : Type} :
    ∀ {l : List (Option α)}, firstSome l = none ↔ ∀ o ∈ l, o = none := by
  intro l
  induction l with
  | nil => simp [firstSome]
  | cons o rest ih =>
    cases o with
    | some a => simp [firstSome]
    | none => simp [firstSome, ih]

/-- The fields of a successfully validated `GoTime` are the parsed ones. -/
theorem mkGoTime_fields {y : Int} {mo d h mi se : Nat} {off : Int} {t : GoTime}
    (hmk : mkGoTime y mo d h mi se off = some t) :
    t.year = y ∧ t.month = mo ∧ t.day = d ∧ t.hour = h ∧ t.minute = mi ∧
      t.second = se ∧ t.offsetMin = off := by
  unfold mkGoTime at hmk
  split at hmk
  · injection hmk with hmk
    subst hmk
    exact ⟨rfl, rfl, rfl, rfl, rfl, rfl, rfl⟩
  · cases hmk

/-- C8: `parseTime` trims the input, then tries the fixed ordered layout
list — RFC-1123 numeric zone, its single-digit-day variant, RFC-1123
named zone, its single-digit-day variant, the full-month-name layout in
UTC, RFC 3339, the `T`-separated numeric-offset fallback, bare
`YYYY-MM-DD` — returning the first success; it returns an error exactly
when no layout matches; and the bare-date layout yields midnight UTC. -/
theorem C8_parseTime_layout_order (raw : String) :
    parseTime raw =
        (match firstSome (feederLayouts.map (fun p => p (trimSpace raw))) with
          | some t => Except.ok t
          | none => Except.error (parseTimeErrMsg (trimSpace raw))) ∧
      ((∃ m, parseTime raw = Except.error m) ↔
        ∀ p ∈ feederLayouts, p (trimSpace raw) = none) ∧
      (∀ (s : String) (t : GoTime), goParseDateOnly s = some t →
        t.hour = 0 ∧ t.minute = 0 ∧ t.second = 0 ∧ t.offsetMin = 0) := by
  have hEq : parseTime raw =
      (match firstSome (feederLayouts.map (fun p => p (trimSpace raw))) with
        | some t => Except.ok t
        | none => Except.error (parseTimeErrMsg (trimSpace raw))) := by
    simp only [parseTime, feederLayouts, List.map_cons, List.map_nil]
    cases goParseRFC1123Z (trimSpace raw) with
    | some t => rfl
    | none =>
    cases goParseRFC1123ZsingleDay (trimSpace raw) with
    | some t => rfl
    | none =>
    cases goParseRFC1123 (trimSpace raw) with
    | some t => rfl
    | none =>
    cases goParseRFC1123singleDay (trimSpace raw) with
    | some t => rfl
    | none =>
    cases goParseRFC1123FullMonth (trimSpace raw) with
    | some t => rfl
    | none =>
    cases goParseRFC3339 (trimSpace raw) with
    | some t => rfl
    | none =>
    cases goParseISONumTZ (trimSpace raw) with
    | some t => rfl
    | none =>
    cases goParseDateOnly (trimSpace raw) with
    | some t => rfl
    | none => rfl
  refine ⟨hEq, ?_, ?_⟩
  · rw [hEq]
    cases hF : firstSome (feederLayouts.map (fun p => p (trimSpace raw))) with
    | some t =>
      constructor
      · rintro ⟨m, hm⟩
        simp at hm
      · intro hall
        have hnone : firstSome (feederLayouts.map (fun p => p (trimSpace raw))) = none :=
          firstSome_eq_none.mpr (by
            intro o ho
            obtain ⟨p, hp, rfl⟩ := List.mem_map.mp ho
            exact hall p hp)
        rw [hF] at hnone
        simp at hnone
    | none =>
      constructor
      · intro _ p hp
        exact firstSome_eq_none.mp hF _ (List.mem_map_of_mem _ hp)
      · intro _
        exact ⟨_, rfl⟩
  · intro s t ht
    unfold goParseDateOnly at ht
    rcases hpd : parseDateDigits s.toList with _ | ⟨y, mo, d, rest⟩ <;> rw [hpd] at ht
    · cases ht
    · cases rest with
      | nil =>
        obtain ⟨-, -, -, h4, h5, h6, h7⟩ := mkGoTime_fields ht
        exact ⟨h4, h5, h6, h7⟩
      | cons c cs => cases ht

/-- Sanity check: the bare-date layout on the date from the repository's
`TestParseDateNoTime` fixture parses to midnight UTC, and the result's
instant is the expected epoch second. -/
theorem parseTime_dateOnly_sample :
    parseTime "2020-11-23" =
      Except.ok { year := 2020, month := 11, day := 23, hour := 0, minute := 0,
                  second := 0, offsetMin := 0 } ∧
      toEpoch { year := 2020, month := 11, day := 23, hour := 0, minute := 0,
                second := 0, offsetMin := 0 } = 1606089600 := ⟨rfl, rfl⟩

/-- Sanity check: surrounding whitespace is trimmed before matching. -/
theorem parseTime_trims_sample :
    parseTime " 2020-11-23 " = parseTime "2020-11-23" := rfl

/-- Sanity check: an RFC-1123-with-numeric-zone date, as in feed
`pubDate` fields, resolves to the correct instant. -/
theorem parseTime_rfc1123z_sample :
    (parseTime "Mon, 02 Jan 2006 15:04:05 -0700").map toEpoch =
      Except.ok 1136239445 := rfl

end Feeder
